import Mathlib

/-!
Verification of the client-side logic of the gong-poc dashboard frontend.

The TypeScript page components are shallowly embedded: JavaScript strings
become Lean `String` (lists of characters where character-level reasoning is
needed), JavaScript numbers become `Int` where the code only ever holds
integers and `ℚ` elsewhere, `null`/`undefined` become `Option`, thrown
exceptions become `Except`, and React state updates become explicit state
passing.  JavaScript's decimal rendering of numbers is modelled by an
injective rendering that never produces a comma or a newline, which is the
only property of it the theorems use.
-/

namespace GongPoc

/-! ### Character-level string helpers (JS builtins used by the pages) -/

/-- Fuel-driven digit expansion of a natural number, most significant digit
first; `fuel` bounds the number of digits and is always taken large enough. -/
def natCharsAux : Nat → Nat → List Char
  | 0, _ => []
  | fuel + 1, n =>
    if n < 10 then [Nat.digitChar n]
    else natCharsAux fuel (n / 10) ++ [Nat.digitChar (n % 10)]

/-- The decimal digit characters used when rendering a natural number. -/
def natChars (n : Nat) : List Char :=
  natCharsAux (n + 1) n

/-- Characters of the JS rendering `String(i)` of an integer. -/
def intChars (i : Int) : List Char :=
  if i < 0 then '-' :: natChars i.natAbs else natChars i.toNat

/-- JS rendering `String(i)` of an integer-valued number. -/
def intStr (i : Int) : String :=
  String.mk (intChars i)

/-- Rendering of a non-integral JS number, modelled injectively via the
reduced fraction; the theorems only use that no comma or newline occurs. -/
def ratChars (q : ℚ) : List Char :=
  intChars q.num ++ '/' :: natChars q.den

/-- JS rendering `String(q)` of a fractional number, as a `String`. -/
def ratStr (q : ℚ) : String :=
  String.mk (ratChars q)

/-- Does the character list `n` occur at the start of `h`? -/
def headSeg : List Char → List Char → Bool
  | [], _ => true
  | _ :: _, [] => false
  | a :: as, b :: bs => a = b && headSeg as bs

/-- Does the character list `n` occur contiguously anywhere in `h`?
This is JS `String.prototype.includes` at the character level. -/
def hasSeg (n : List Char) : List Char → Bool
  | [] => n.isEmpty
  | b :: bs => headSeg n (b :: bs) || hasSeg n bs

/-- JS `hay.includes(needle)`. -/
def jsIncludes (hay needle : String) : Bool :=
  hasSeg needle.data hay.data

/-- JS `s.toLowerCase()`, character by character. -/
def lowerStr (s : String) : String :=
  String.mk (s.data.map Char.toLower)

/-- Lexicographic code-point comparison of character lists, in `le` form. -/
def charsLe : List Char → List Char → Bool
  | [], _ => true
  | _ :: _, [] => false
  | a :: as, b :: bs => if a = b then charsLe as bs else decide (a.toNat < b.toNat)

/-- `localeCompare`-based ordering of the pages, modelled as lexicographic
code-point comparison: `strLe s t` holds when `s` sorts no later than `t`. -/
def strLe (s t : String) : Bool :=
  charsLe s.data t.data

/-- JS `s.trim()`: strip whitespace from both ends. -/
def trimStr (s : String) : String :=
  String.mk (((s.data.dropWhile Char.isWhitespace).reverse.dropWhile
    Char.isWhitespace).reverse)

/-! ### C1: lifecycle pipeline, `nextStatus` and the advance button
(src/frontend/app/aims/lifecycle/page.tsx) -/

/-- The fixed pipeline list of the lifecycle page. -/
def PIPELINE_STATUSES : List String :=
  ["proposed", "impact_assessed", "approved", "in_development", "deployed",
   "monitoring", "under_review", "on_hold", "retired"]

/-- JS `Array.prototype.indexOf`, returning `-1` when absent. -/
def jsIndexOfAux (x : String) : List String → Int → Int
  | [], _ => -1
  | y :: ys, i => if y = x then i else jsIndexOfAux x ys (i + 1)

/-- JS `l.indexOf(x)`. -/
def jsIndexOf (l : List String) (x : String) : Int :=
  jsIndexOfAux x l 0

/-- `nextStatus` from the lifecycle page: the next pipeline entry, except
that `on_hold` and `retired` are never offered as automatic next steps. -/
def nextStatus (current : String) : Option String :=
  let idx := jsIndexOf PIPELINE_STATUSES current
  if idx = -1 ∨ idx ≥ (PIPELINE_STATUSES.length : Int) - 1 then none
  else
    let next := PIPELINE_STATUSES.getD (idx + 1).toNat ""
    if next = "on_hold" ∨ next = "retired" then none else some next

/-- The HTTP request issued by `transitionMutation.mutate`. -/
structure TransitionRequest where
  path : String
  method : String
  to_status : String
  actor : String
deriving DecidableEq

/-- The body and endpoint built by `transitionMutation`'s `mutationFn`. -/
def transitionRequest (id : Int) (toSt : String) : TransitionRequest :=
  { path := "/aims/projects/" ++ intStr id ++ "/transition"
    method := "POST"
    to_status := toSt
    actor := "David Lai" }

/-- The advance button: rendered (and able to issue a request) only when
`nextStatus` of the selected detail's status is non-null. -/
def advanceAction (id : Int) (status : String) : Option TransitionRequest :=
  (nextStatus status).map (transitionRequest id)

/-! ### C2: weighted re-ranking recompute (scoring explorer page) -/

/-- The four adjustable weights of the scoring explorer. -/
structure Weights where
  revenue_impact : ℚ
  headcount_pressure : ℚ
  implementation_complexity : ℚ
  self_service_potential : ℚ
deriving DecidableEq

/-- `DEFAULT_WEIGHTS` of the scoring explorer page. -/
def DEFAULT_WEIGHTS : Weights :=
  { revenue_impact := 30 / 100
    headcount_pressure := 20 / 100
    implementation_complexity := 25 / 100
    self_service_potential := 25 / 100 }

/-- The per-workflow score vector, including the composite. -/
structure WorkflowScores where
  revenue_impact : ℚ
  headcount_pressure : ℚ
  implementation_complexity : ℚ
  self_service_potential : ℚ
  composite : ℚ
deriving DecidableEq

/-- A scored workflow as returned by `/discovery/workflows`. -/
structure ScoredWorkflow where
  id : String
  name : String
  department : String
  description : String
  scores : WorkflowScores
  annual_cost_savings_usd : ℚ
  estimated_build_hours : ℚ
  jim_principles : List String
  rank : Int
deriving DecidableEq

/-- JS `parseFloat(x.toFixed(2))`: round to two decimal places. -/
def round2 (q : ℚ) : ℚ :=
  (round (q * 100) : ℤ) / 100

/-- The recomputed composite of the client-side re-ranking. -/
def weightedComposite (w : Weights) (s : WorkflowScores) : ℚ :=
  round2 (w.revenue_impact * s.revenue_impact +
    w.headcount_pressure * s.headcount_pressure +
    w.implementation_complexity * s.implementation_complexity +
    w.self_service_potential * s.self_service_potential)

/-- The `map` step of `rankedWorkflows`: copy the workflow, replacing only
the composite score. -/
def rescore (w : Weights) (wf : ScoredWorkflow) : ScoredWorkflow :=
  { wf with scores := { wf.scores with composite := weightedComposite w wf.scores } }

/-- The comparator `(a, b) => b.scores.composite - a.scores.composite`:
`a` may precede `b` when its composite is at least `b`'s. -/
def compositeDesc (a b : ScoredWorkflow) : Prop :=
  b.scores.composite ≤ a.scores.composite

instance : DecidableRel compositeDesc :=
  fun _ _ => inferInstanceAs (Decidable (_ ≤ _))

/-- `rankedWorkflows`: recompute every composite, then sort descending. -/
def rankedWorkflows (w : Weights) (workflows : List ScoredWorkflow) : List ScoredWorkflow :=
  List.insertionSort compositeDesc (workflows.map (rescore w))

/-! ### C3/C4/C8/C10: audit log table (src/frontend/app/governance/page.tsx) -/

/-- One row of the audit log returned by `/governance/audit`. -/
structure AuditEntry where
  id : Int
  timestamp : String
  department : String
  model : String
  provider : String
  task_tier : String
  total_tokens : Int
  cost_usd : ℚ
  latency_ms : Int
  status : String
deriving DecidableEq

/-- The sortable fields of an audit entry (`SortKey = keyof AuditEntry`). -/
inductive SortKey
  | id | timestamp | department | model | provider | task_tier
  | total_tokens | cost_usd | latency_ms | status
deriving DecidableEq

/-- Sort direction. -/
inductive SortDir
  | asc | desc
deriving DecidableEq

/-- A JS value as seen by the audit-table comparator: a number or a string. -/
inductive JsVal
  | num (q : ℚ)
  | str (s : String)
deriving DecidableEq

/-- Field access `e[sortKey]`. -/
def entryVal (k : SortKey) (e : AuditEntry) : JsVal :=
  match k with
  | .id => .num e.id
  | .timestamp => .str e.timestamp
  | .department => .str e.department
  | .model => .str e.model
  | .provider => .str e.provider
  | .task_tier => .str e.task_tier
  | .total_tokens => .num e.total_tokens
  | .cost_usd => .num e.cost_usd
  | .latency_ms => .num e.latency_ms
  | .status => .str e.status

/-- JS `String(v)` on a field value. -/
def jsValStr : JsVal → String
  | .num q => ratStr q
  | .str s => s

/-- The comparator of the audit table in `le` form: numeric comparison when
both values are numbers, otherwise string comparison of the string forms. -/
def jsValLe (a b : JsVal) : Bool :=
  match a, b with
  | .num x, .num y => decide (x ≤ y)
  | a, b => strLe (jsValStr a) (jsValStr b)

/-- The sort order used by the audit table for a key and direction. -/
def sortRel (k : SortKey) (d : SortDir) (a b : AuditEntry) : Prop :=
  match d with
  | .asc => jsValLe (entryVal k a) (entryVal k b) = true
  | .desc => jsValLe (entryVal k b) (entryVal k a) = true

instance (k : SortKey) (d : SortDir) : DecidableRel (sortRel k d) := fun a b => by
  unfold sortRel; cases d <;> infer_instance

/-- The sort step of the audit table's `filtered` memo. -/
def sortEntries (k : SortKey) (d : SortDir) (l : List AuditEntry) : List AuditEntry :=
  List.insertionSort (sortRel k d) l

/-- The free-text search predicate of the audit table. -/
def searchMatch (search : String) (e : AuditEntry) : Bool :=
  let q := lowerStr search
  jsIncludes (lowerStr e.department) q || jsIncludes (lowerStr e.model) q ||
    jsIncludes (lowerStr e.status) q || jsIncludes (intStr e.id) q

/-- The filter pipeline of `filtered` before sorting. -/
def auditPreFilter (deptFilter modelFilter search : String)
    (entries : List AuditEntry) : List AuditEntry :=
  let e1 := if deptFilter ≠ "all"
    then entries.filter (fun e => e.department = deptFilter) else entries
  let e2 := if modelFilter ≠ "all"
    then e1.filter (fun e => e.model = modelFilter) else e1
  if trimStr search ≠ "" then e2.filter (searchMatch search) else e2

/-- The `filtered` memo of the audit log: filter, then sort. -/
def auditFiltered (deptFilter modelFilter search : String) (k : SortKey)
    (d : SortDir) (entries : List AuditEntry) : List AuditEntry :=
  sortEntries k d (auditPreFilter deptFilter modelFilter search entries)

/-- The pieces of component state that `toggleSort` reads and writes. -/
structure AuditViewState where
  sortKey : SortKey
  sortDir : SortDir
  page : Nat
deriving DecidableEq

/-- Flip a sort direction. -/
def flipDir : SortDir → SortDir
  | .asc => .desc
  | .desc => .asc

/-- `toggleSort` from the audit log component. -/
def toggleSort (st : AuditViewState) (key : SortKey) : AuditViewState :=
  if st.sortKey = key then { st with sortDir := flipDir st.sortDir, page := 0 }
  else { sortKey := key, sortDir := SortDir.desc, page := 0 }

/-- JS `Array.prototype.join(sep)`. -/
def joinSep (sep : String) : List String → String
  | [] => ""
  | [x] => x
  | x :: y :: xs => x ++ sep ++ joinSep sep (y :: xs)

/-- The fixed CSV header columns. -/
def csvHeaders : List String :=
  ["ID", "Timestamp", "Department", "Model", "Tokens", "Cost", "Latency (ms)", "Status"]

/-- The fields of one exported CSV row, in export order. -/
def csvRowFields (e : AuditEntry) : List String :=
  [intStr e.id, e.timestamp, e.department, e.model, intStr e.total_tokens,
   ratStr e.cost_usd, intStr e.latency_ms, e.status]

/-- `exportCsv`: `none` models the early return on an empty filtered list;
otherwise the produced CSV text. -/
def exportCsv (filtered : List AuditEntry) : Option String :=
  if filtered.length = 0 then none
  else some (joinSep "\n"
    (joinSep "," csvHeaders :: filtered.map (fun e => joinSep "," (csvRowFields e))))

/-- Split a character list at every occurrence of `c`. -/
def splitSeg (c : Char) : List Char → List (List Char)
  | [] => [[]]
  | x :: xs =>
    match splitSeg c xs with
    | [] => [[]]
    | h :: t => if x = c then [] :: h :: t else (x :: h) :: t

/-- Split a string at every occurrence of the character `c`. -/
def splitChar (c : Char) (s : String) : List String :=
  (splitSeg c s.data).map String.mk

/-- A naive CSV reader: split into lines, split each line at commas. -/
def parseNaiveCsv (t : String) : List (List String) :=
  (splitChar '\n' t).map (fun line => splitChar ',' line)

/-- `PAGE_SIZE` of the audit log. -/
def PAGE_SIZE : Nat := 20

/-- `Math.ceil(filtered.length / PAGE_SIZE)`. -/
def totalPages (filtered : List AuditEntry) : Nat :=
  Nat.ceil ((filtered.length : ℚ) / (PAGE_SIZE : ℚ))

/-- JS `Array.prototype.slice(start, end)`. -/
def jsSlice {α : Type} (start stop : Nat) (l : List α) : List α :=
  (l.drop start).take (stop - start)

/-- `pageEntries`: the slice of the filtered list shown on page `page`. -/
def pageEntries (page : Nat) (filtered : List AuditEntry) : List AuditEntry :=
  jsSlice (page * PAGE_SIZE) ((page + 1) * PAGE_SIZE) filtered

/-! ### C5: onboarding status WebSocket handler
(src/frontend/app/onboarding/status/page.tsx) -/

/-- A live-update message; every field of the TS interface is optional. -/
structure WsMessage where
  type : Option String
  step : Option String
  status : Option String
  agent : Option String
  message : Option String
  details : Option String
  timestamp : Option String
deriving DecidableEq

/-- The state the WebSocket handlers can touch: the accumulated message
list and how many times the status query has been invalidated. -/
structure WsState where
  messages : List WsMessage
  statusInvalidations : Nat
deriving DecidableEq

/-- `ws.onmessage`: `parsed` is the result of `JSON.parse` on the incoming
data (`none` when parsing throws, which the handler catches and ignores). -/
def wsOnMessage (parsed : Option WsMessage) (st : WsState) : WsState :=
  match parsed with
  | none => st
  | some m =>
    { messages := st.messages ++ [m]
      statusInvalidations := st.statusInvalidations + 1 }

/-- `ws.onerror`: deliberately does nothing. -/
def wsOnError (st : WsState) : WsState := st

/-- The `refetchInterval` of the HTTP status query, in milliseconds. -/
def statusRefetchIntervalMs : Nat := 5000

/-! ### C6: `apiFetch` (frontend/lib/utils.ts) and the error boxes -/

/-- The one HTTP response an `apiFetch` call observes; `body` is the
already-parsed JSON payload. -/
structure JsResponse (α : Type) where
  status : Nat
  body : α

/-- JS `Response.ok`: status in the range 200-299. -/
def respOk {α : Type} (r : JsResponse α) : Bool :=
  decide (200 ≤ r.status) && decide (r.status < 300)

/-- `apiFetch`: throw `API error: <status>` on a non-ok response, otherwise
return the parsed body. -/
def apiFetch {α : Type} (r : JsResponse α) : Except String α :=
  if respOk r = false then Except.error ("API error: " ++ intStr r.status)
  else Except.ok r.body

/-- The static text of the lifecycle page's `isError` branch. -/
def lifecycleErrorText : String := "Failed to load projects"

/-- The text of the audit log's `isError` branch. -/
def auditErrorText (msg : String) : String := "Failed to load audit log: " ++ msg

/-! ### C7: discovery backlog filter (src/unnamed/part_005) -/

/-- A backlog opportunity as returned by `/discovery/backlog`. -/
structure BacklogItem where
  id : String
  workflow_id : String
  title : String
  user_story : String
  acceptance_criteria : List String
  effort : String
  estimated_roi_usd : ℚ
  composite_score : ℚ
  jim_principles : List String
  department : String
  rank : Int
deriving DecidableEq

/-- The backlog page's sort selector. -/
inductive SortField
  | score | roi | department
deriving DecidableEq

/-- The backlog search predicate: title, department, or a jim principle
contains the lowercased search term. -/
def backlogSearchMatch (searchTerm : String) (o : BacklogItem) : Bool :=
  let q := lowerStr searchTerm
  jsIncludes (lowerStr o.title) q || jsIncludes (lowerStr o.department) q ||
    o.jim_principles.any (fun p => jsIncludes (lowerStr p) q)

/-- The backlog sort comparator in `le` form. -/
def backlogSortRel (sortBy : SortField) (a b : BacklogItem) : Prop :=
  match sortBy with
  | .score => b.composite_score ≤ a.composite_score
  | .roi => b.estimated_roi_usd ≤ a.estimated_roi_usd
  | .department => strLe a.department b.department = true

instance (sortBy : SortField) : DecidableRel (backlogSortRel sortBy) := fun a b => by
  unfold backlogSortRel; cases sortBy <;> infer_instance

/-- The `filtered` memo of the backlog page: department filter, search
filter, then sort. -/
def backlogFiltered (filterDept searchTerm : String) (sortBy : SortField)
    (items : List BacklogItem) : List BacklogItem :=
  let l1 := if filterDept ≠ "all"
    then items.filter (fun o => o.department = filterDept) else items
  let l2 := if searchTerm ≠ "" then l1.filter (backlogSearchMatch searchTerm) else l1
  List.insertionSort (backlogSortRel sortBy) l2

/-- The `Showing <filtered> of <total> opportunities` line. -/
def backlogShowingLine (filterDept searchTerm : String) (sortBy : SortField)
    (items : List BacklogItem) : String :=
  "Showing " ++ intStr (backlogFiltered filterDept searchTerm sortBy items).length ++
    " of " ++ intStr items.length ++ " opportunities"

/-! ### C9: lifecycle kanban grouping (`projectsByStatus`) -/

/-- A project summary as returned by `/aims/projects`. -/
structure ProjectSummary where
  id : Int
  workflow_id : String
  name : String
  department : String
  status : String
  risk_level : String
  risk_score : ℚ
  benefit_score : ℚ
  owner : String
  controls : List String
  review_due : Option String
deriving DecidableEq

/-- The kanban board: one bucket per pipeline status, in pipeline order. -/
abbrev Columns := List (String × List ProjectSummary)

/-- The record initialised with an empty list for every pipeline status. -/
def emptyColumns : Columns :=
  PIPELINE_STATUSES.map (fun s => (s, []))

/-- One iteration of the grouping loop: push the project onto the bucket
whose key is its status, when such a bucket exists. -/
def addToColumns (cols : Columns) (p : ProjectSummary) : Columns :=
  if cols.any (fun c => c.1 = p.status) then
    cols.map (fun c => if c.1 = p.status then (c.1, c.2 ++ [p]) else c)
  else cols

/-- `projectsByStatus`: group the fetched projects into kanban columns. -/
def projectsByStatus (projects : List ProjectSummary) : Columns :=
  projects.foldl addToColumns emptyColumns

/-! ## Theorems -/

/-- C5: the WebSocket handler ignores malformed messages (the list and the
invalidation count are untouched), appends exactly the parsed message and
invalidates the status query on a well-formed one, silently ignores socket
errors, and the HTTP status query's refetch interval is a constant 5000 ms
independent of any WebSocket state. -/
theorem wsHandler_malformed_ignored_and_polling (st : WsState) (m : WsMessage) :
    wsOnMessage none st = st ∧
    wsOnMessage (some m) st =
      { messages := st.messages ++ [m]
        statusInvalidations := st.statusInvalidations + 1 } ∧
    wsOnError st = st ∧
    statusRefetchIntervalMs = 5000 :=
  ⟨rfl, rfl, rfl, rfl⟩

/-- C6: `apiFetch` throws `API error: <status>` exactly when the single
response it observes is not ok (status outside 200-299), returns the parsed
body otherwise, and the pages' error branches render static texts starting
with `Failed to load`. -/
theorem apiFetch_throws_iff_not_ok (α : Type) (r : JsResponse α) :
    (respOk r = false → apiFetch r = Except.error ("API error: " ++ intStr r.status)) ∧
    (respOk r = true → apiFetch r = Except.ok r.body) ∧
    (respOk r = true ↔ 200 ≤ r.status ∧ r.status < 300) ∧
    (∀ msg, apiFetch r = Except.error msg ↔
      respOk r = false ∧ msg = "API error: " ++ intStr r.status) ∧
    (∃ rest, lifecycleErrorText = "Failed to load " ++ rest) ∧
    (∀ m, ∃ rest, auditErrorText m = "Failed to load " ++ rest) := by
  refine ⟨?_, ?_, ?_, ?_, ⟨"projects", rfl⟩, fun m => ⟨"audit log: " ++ m, ?_⟩⟩
  · intro h; simp [apiFetch, h]
  · intro h; simp [apiFetch, h]
  · simp [respOk]
  · intro msg
    cases h : respOk r <;> simp [apiFetch, h]
    · exact eq_comm
  · show auditErrorText m = "Failed to load " ++ ("audit log: " ++ m)
    have h : ("Failed to load audit log: " : String) = "Failed to load " ++ "audit log: " := rfl
    rw [auditErrorText, h, String.append_assoc]

/-- Witness for C6 at a concrete non-ok response. -/
theorem apiFetch_throws_iff_not_ok_check :
    apiFetch ({ status := 404, body := () } : JsResponse Unit) =
      Except.error ("API error: " ++ intStr 404) :=
  (apiFetch_throws_iff_not_ok Unit { status := 404, body := () }).1 rfl

/-- C1: `nextStatus` is the strictly linear advance: each of the first six
pipeline statuses maps to the element immediately after it, and
`under_review`, `on_hold`, `retired`, or any string outside the pipeline
maps to `null`; no request can be issued when it is `null`, and when it is
non-null the one request issued is a POST to the project's transition
endpoint carrying exactly that next status. -/
theorem nextStatus_linear_advance (s : String) (pid : Int) :
    (nextStatus s =
      if s = "proposed" then some "impact_assessed"
      else if s = "impact_assessed" then some "approved"
      else if s = "approved" then some "in_development"
      else if s = "in_development" then some "deployed"
      else if s = "deployed" then some "monitoring"
      else if s = "monitoring" then some "under_review"
      else none) ∧
    (advanceAction pid s = none ↔ nextStatus s = none) ∧
    (∀ r, advanceAction pid s = some r →
      r.method = "POST" ∧
      r.path = "/aims/projects/" ++ intStr pid ++ "/transition" ∧
      nextStatus s = some r.to_status) := by
  refine ⟨?_, ?_, ?_⟩
  · rcases eq_or_ne s "proposed" with h1 | h1
    · subst h1; rfl
    rcases eq_or_ne s "impact_assessed" with h2 | h2
    · subst h2; rfl
    rcases eq_or_ne s "approved" with h3 | h3
    · subst h3; rfl
    rcases eq_or_ne s "in_development" with h4 | h4
    · subst h4; rfl
    rcases eq_or_ne s "deployed" with h5 | h5
    · subst h5; rfl
    rcases eq_or_ne s "monitoring" with h6 | h6
    · subst h6; rfl
    rcases eq_or_ne s "under_review" with h7 | h7
    · subst h7; rfl
    rcases eq_or_ne s "on_hold" with h8 | h8
    · subst h8; rfl
    rcases eq_or_ne s "retired" with h9 | h9
    · subst h9; rfl
    simp [nextStatus, jsIndexOf, jsIndexOfAux, PIPELINE_STATUSES,
      h1, h2, h3, h4, h5, h6,
      Ne.symm h1, Ne.symm h2, Ne.symm h3, Ne.symm h4, Ne.symm h5,
      Ne.symm h6, Ne.symm h7, Ne.symm h8, Ne.symm h9]
  · cases h : nextStatus s <;> simp [advanceAction, h]
  · intro r hr
    cases h : nextStatus s with
    | none => simp [advanceAction, h] at hr
    | some t =>
      simp only [advanceAction, h, Option.map_some', Option.some.injEq] at hr
      subst hr
      exact ⟨rfl, rfl, rfl⟩

/-- Witness for C1: advancing an `approved` project issues exactly the POST
to the transition endpoint with the next status `in_development`. -/
theorem nextStatus_linear_advance_check :
    (transitionRequest 7 "in_development").method = "POST" ∧
    (transitionRequest 7 "in_development").path =
      "/aims/projects/" ++ intStr 7 ++ "/transition" ∧
    nextStatus "approved" = some (transitionRequest 7 "in_development").to_status :=
  (nextStatus_linear_advance "approved" 7).2.2 (transitionRequest 7 "in_development") rfl

/-- C2: the weighted re-ranking is a pure array recompute: the result is a
permutation of the fetched workflows with only the composite replaced by the
two-decimal rounding of the weighted sum of the four axis scores, every
other field untouched, sorted descending by the recomputed composite. -/
theorem rankedWorkflows_weighted_rerank (w : Weights) (l : List ScoredWorkflow)
    (wf : ScoredWorkflow) :
    (rankedWorkflows w l).Perm (l.map (rescore w)) ∧
    List.Pairwise (fun a b => b.scores.composite ≤ a.scores.composite)
      (rankedWorkflows w l) ∧
    (rescore w wf).scores.composite =
      round2 (w.revenue_impact * wf.scores.revenue_impact +
        w.headcount_pressure * wf.scores.headcount_pressure +
        w.implementation_complexity * wf.scores.implementation_complexity +
        w.self_service_potential * wf.scores.self_service_potential) ∧
    (rescore w wf).id = wf.id ∧ (rescore w wf).name = wf.name ∧
    (rescore w wf).department = wf.department ∧
    (rescore w wf).description = wf.description ∧
    (rescore w wf).annual_cost_savings_usd = wf.annual_cost_savings_usd ∧
    (rescore w wf).estimated_build_hours = wf.estimated_build_hours ∧
    (rescore w wf).jim_principles = wf.jim_principles ∧
    (rescore w wf).rank = wf.rank ∧
    (rescore w wf).scores.revenue_impact = wf.scores.revenue_impact ∧
    (rescore w wf).scores.headcount_pressure = wf.scores.headcount_pressure ∧
    (rescore w wf).scores.implementation_complexity = wf.scores.implementation_complexity ∧
    (rescore w wf).scores.self_service_potential = wf.scores.self_service_potential := by
  refine ⟨List.perm_insertionSort _ _, ?_,
    rfl, rfl, rfl, rfl, rfl, rfl, rfl, rfl, rfl, rfl, rfl, rfl, rfl⟩
  haveI : IsTotal ScoredWorkflow compositeDesc := ⟨fun a b => le_total _ _⟩
  haveI : IsTrans ScoredWorkflow compositeDesc :=
    ⟨fun _ _ _ hab hbc => le_trans hbc hab⟩
  exact List.sorted_insertionSort compositeDesc _

/-- C7: the backlog's displayed list contains exactly the fetched items
passing the department filter and the case-insensitive search, and the page
reports `Showing <filtered> of <total> opportunities`. -/
theorem backlogFiltered_membership (filterDept searchTerm : String)
    (sortBy : SortField) (items : List BacklogItem) (x : BacklogItem) :
    (x ∈ backlogFiltered filterDept searchTerm sortBy items ↔
      x ∈ items ∧ (filterDept ≠ "all" → x.department = filterDept) ∧
        (searchTerm ≠ "" → backlogSearchMatch searchTerm x = true)) ∧
    backlogShowingLine filterDept searchTerm sortBy items =
      "Showing " ++ intStr (backlogFiltered filterDept searchTerm sortBy items).length ++
        " of " ++ intStr items.length ++ " opportunities" := by
  refine ⟨?_, rfl⟩
  simp only [backlogFiltered]
  rw [List.Perm.mem_iff (List.perm_insertionSort _ _)]
  by_cases hd : filterDept = "all" <;> by_cases hq : searchTerm = "" <;>
    (simp [hd, hq, List.mem_filter]; try tauto)

/-- Witness for C7: with no department filter and no search term every
fetched item is displayed. -/
theorem backlogFiltered_membership_check :
    ({ id := "w1", workflow_id := "wf", title := "T", user_story := "u",
       acceptance_criteria := [], effort := "S", estimated_roi_usd := 5,
       composite_score := 7, jim_principles := [], department := "sales",
       rank := 1 } : BacklogItem) ∈ backlogFiltered "all" "" SortField.score
      [{ id := "w1", workflow_id := "wf", title := "T", user_story := "u",
         acceptance_criteria := [], effort := "S", estimated_roi_usd := 5,
         composite_score := 7, jim_principles := [], department := "sales",
         rank := 1 }] :=
  (backlogFiltered_membership "all" "" SortField.score _ _).1.mpr
    ⟨List.mem_singleton.mpr rfl, fun h => absurd rfl h, fun h => absurd rfl h⟩

/-! ### Order lemmas for the audit table comparator -/

theorem charsLe_total : ∀ a b : List Char, charsLe a b = true ∨ charsLe b a = true := by
  intro a
  induction a with
  | nil => intro b; left; rfl
  | cons x xs ih =>
    intro b
    cases b with
    | nil => right; rfl
    | cons y ys =>
      by_cases hxy : x = y
      · subst hxy
        rcases ih ys with h | h
        · left; simpa [charsLe] using h
        · right; simpa [charsLe] using h
      · have hne : x.toNat ≠ y.toNat := fun hn => hxy (Char.ext (UInt32.ext hn))
        simp only [charsLe, if_neg hxy, if_neg (Ne.symm hxy), decide_eq_true_eq]
        omega

theorem charsLe_trans : ∀ a b c : List Char,
    charsLe a b = true → charsLe b c = true → charsLe a c = true := by
  intro a
  induction a with
  | nil => intro b c _ _; rfl
  | cons x xs ih =>
    intro b c hab hbc
    cases b with
    | nil => simp [charsLe] at hab
    | cons y ys =>
      cases c with
      | nil => simp [charsLe] at hbc
      | cons z zs =>
        by_cases hxy : x = y <;> by_cases hyz : y = z
        · subst hxy; subst hyz
          simp only [charsLe, if_pos rfl] at hab hbc ⊢
          exact ih ys zs hab hbc
        · subst hxy
          simp only [charsLe, if_neg hyz] at hbc ⊢
          exact hbc
        · subst hyz
          simp only [charsLe, if_neg hxy] at hab ⊢
          exact hab
        · simp only [charsLe, if_neg hxy, decide_eq_true_eq] at hab
          simp only [charsLe, if_neg hyz, decide_eq_true_eq] at hbc
          by_cases hxz : x = z
          · subst hxz; omega
          · simp only [charsLe, if_neg hxz, decide_eq_true_eq]; omega

theorem strLe_total (s t : String) : strLe s t = true ∨ strLe t s = true :=
  charsLe_total _ _

theorem strLe_trans (s t u : String) :
    strLe s t = true → strLe t u = true → strLe s u = true :=
  charsLe_trans _ _ _

theorem sortRel_total (k : SortKey) (d : SortDir) (a b : AuditEntry) :
    sortRel k d a b ∨ sortRel k d b a := by
  cases d <;> cases k <;>
    simp only [sortRel, entryVal, jsValLe, jsValStr, decide_eq_true_eq] <;>
    first
      | exact le_total _ _
      | exact Or.symm (le_total _ _)
      | exact strLe_total _ _

theorem sortRel_trans (k : SortKey) (d : SortDir) (a b c : AuditEntry) :
    sortRel k d a b → sortRel k d b c → sortRel k d a c := by
  cases d <;> cases k <;>
    simp only [sortRel, entryVal, jsValLe, jsValStr, decide_eq_true_eq] <;>
    first
      | exact fun h1 h2 => le_trans h1 h2
      | exact fun h1 h2 => le_trans h2 h1
      | exact fun h1 h2 => strLe_trans _ _ _ h1 h2
      | exact fun h1 h2 => strLe_trans _ _ _ h2 h1

/-- C3: the audit table sort re-sorts the already-fetched, filtered list:
the result is a permutation of the filtered entries, pairwise ordered by the
chosen field (numerically on number fields, by string comparison of the
string forms otherwise, ascending for `asc` and descending for `desc`);
toggling the current sort key flips the direction, choosing a different key
sets the direction to `desc`, and either action resets the page to 0. -/
theorem auditFiltered_sorted_toggle (deptF modelF search : String) (k : SortKey)
    (d : SortDir) (entries : List AuditEntry) (st : AuditViewState) (key : SortKey) :
    (sortEntries k d (auditPreFilter deptF modelF search entries)).Perm
      (auditPreFilter deptF modelF search entries) ∧
    auditFiltered deptF modelF search k d entries =
      sortEntries k d (auditPreFilter deptF modelF search entries) ∧
    List.Pairwise (sortRel k d) (auditFiltered deptF modelF search k d entries) ∧
    (st.sortKey = key →
      toggleSort st key =
        { sortKey := st.sortKey, sortDir := flipDir st.sortDir, page := 0 }) ∧
    (st.sortKey ≠ key →
      toggleSort st key = { sortKey := key, sortDir := SortDir.desc, page := 0 }) := by
  refine ⟨List.perm_insertionSort _ _, rfl, ?_, ?_, ?_⟩
  · haveI : IsTotal AuditEntry (sortRel k d) := ⟨sortRel_total k d⟩
    haveI : IsTrans AuditEntry (sortRel k d) := ⟨sortRel_trans k d⟩
    exact List.sorted_insertionSort _ _
  · intro h; simp [toggleSort, h]
  · intro h; simp [toggleSort, h]

/-- Witness for C3: toggling the active `timestamp` header flips the
direction and resets the page. -/
theorem auditFiltered_sorted_toggle_check :
    toggleSort { sortKey := SortKey.timestamp, sortDir := SortDir.desc, page := 3 }
      SortKey.timestamp =
      { sortKey := SortKey.timestamp, sortDir := flipDir SortDir.desc, page := 0 } :=
  (auditFiltered_sorted_toggle "all" "all" "" SortKey.timestamp SortDir.desc []
    { sortKey := SortKey.timestamp, sortDir := SortDir.desc, page := 3 }
    SortKey.timestamp).2.2.2.1 rfl

/-! ### Pagination lemmas -/

theorem totalPages_eq (l : List AuditEntry) :
    totalPages l = (l.length + PAGE_SIZE - 1) / PAGE_SIZE := by
  unfold totalPages PAGE_SIZE
  simp only [Nat.cast_ofNat]
  set n := l.length
  apply le_antisymm
  · rw [Nat.ceil_le, div_le_iff₀ (by norm_num : (0 : ℚ) < 20)]
    have h2 : (n + 20 - 1) % 20 < 20 := Nat.mod_lt _ (by norm_num)
    have h := Nat.div_add_mod (n + 20 - 1) 20
    have hNat : n ≤ ((n + 20 - 1) / 20) * 20 := by omega
    calc (n : ℚ) ≤ ((((n + 20 - 1) / 20) * 20 : ℕ) : ℚ) := by exact_mod_cast hNat
      _ = (((n + 20 - 1) / 20 : ℕ) : ℚ) * 20 := by push_cast; ring
  · have hceil := Nat.le_ceil ((n : ℚ) / 20)
    set m := Nat.ceil ((n : ℚ) / 20) with hm
    rw [div_le_iff₀ (by norm_num : (0 : ℚ) < 20)] at hceil
    have hNat : n ≤ m * 20 := by exact_mod_cast hceil
    omega

theorem chunksJoin {α : Type} (n : Nat) :
    ∀ (k : Nat) (l : List α), l.length ≤ k * n →
      ((List.range k).map (fun p => (l.drop (p * n)).take n)).flatten = l := by
  intro k
  induction k with
  | zero =>
    intro l hl
    simp only [Nat.zero_mul, Nat.le_zero] at hl
    simp [List.length_eq_zero.mp hl]
  | succ k ih =>
    intro l hl
    rw [List.range_succ_eq_map]
    simp only [List.map_cons, List.map_map, List.flatten_cons, Nat.zero_mul,
      List.drop_zero]
    have hrw : (List.range k).map ((fun p => (l.drop (p * n)).take n) ∘ Nat.succ) =
        (List.range k).map (fun p => ((l.drop n).drop (p * n)).take n) := by
      apply List.map_congr_left
      intro p _
      simp only [Function.comp]
      rw [List.drop_drop]
      congr 2
      rw [Nat.succ_mul]
      omega
    have hsz : (l.drop n).length ≤ k * n := by
      have h1 : (k + 1) * n = k * n + n := by ring
      simp only [List.length_drop]
      omega
    rw [hrw, ih (l.drop n) hsz]
    exact List.take_append_drop n l

/-- C10: pagination partitions the filtered list without loss or
duplication: each page is the 20-wide slice starting at `p * 20`, holds at
most 20 entries, the concatenation of all `totalPages` pages is exactly the
filtered list, and `totalPages` is the ceiling of `length / 20` (bracketed
between `length` and `length + 20`). -/
theorem pageEntries_partition (l : List AuditEntry) (p : Nat) :
    pageEntries p l = (l.drop (p * PAGE_SIZE)).take PAGE_SIZE ∧
    (pageEntries p l).length ≤ PAGE_SIZE ∧
    ((List.range (totalPages l)).map (fun q => pageEntries q l)).flatten = l ∧
    l.length ≤ totalPages l * PAGE_SIZE ∧
    totalPages l * PAGE_SIZE < l.length + PAGE_SIZE := by
  have hslice : ∀ q, pageEntries q l = (l.drop (q * PAGE_SIZE)).take PAGE_SIZE := by
    intro q
    unfold pageEntries jsSlice PAGE_SIZE
    congr 1
    omega
  have htp := totalPages_eq l
  have hle : l.length ≤ totalPages l * PAGE_SIZE := by
    rw [htp]
    unfold PAGE_SIZE
    have h2 : (l.length + 20 - 1) % 20 < 20 := Nat.mod_lt _ (by norm_num)
    have h := Nat.div_add_mod (l.length + 20 - 1) 20
    omega
  refine ⟨hslice p, ?_, ?_, hle, ?_⟩
  · rw [hslice p]
    exact List.length_take_le _ _
  · have hmap : (List.range (totalPages l)).map (fun q => pageEntries q l) =
        (List.range (totalPages l)).map
          (fun q => (l.drop (q * PAGE_SIZE)).take PAGE_SIZE) :=
      List.map_congr_left (fun q _ => hslice q)
    rw [hmap]
    exact chunksJoin PAGE_SIZE (totalPages l) l hle
  · rw [htp]
    unfold PAGE_SIZE
    have h2 : (l.length + 20 - 1) % 20 < 20 := Nat.mod_lt _ (by norm_num)
    have h := Nat.div_add_mod (l.length + 20 - 1) 20
    omega

/-! ### Kanban grouping lemmas -/

theorem addToColumns_keyed (f : String → List ProjectSummary) (p : ProjectSummary) :
    addToColumns (PIPELINE_STATUSES.map (fun s => (s, f s))) p =
      PIPELINE_STATUSES.map
        (fun s => (s, f s ++ if p.status = s then [p] else [])) := by
  unfold addToColumns
  by_cases hp : p.status ∈ PIPELINE_STATUSES
  · rw [if_pos (by
      rw [List.any_eq_true]
      exact ⟨(p.status, f p.status), List.mem_map_of_mem _ hp, by simp⟩)]
    rw [List.map_map]
    apply List.map_congr_left
    intro s _
    simp only [Function.comp]
    by_cases hs : s = p.status
    · subst hs; simp
    · simp [hs, Ne.symm hs]
  · rw [if_neg (by
      intro hcon
      rw [List.any_eq_true] at hcon
      obtain ⟨c, hcmem, hc⟩ := hcon
      rw [List.mem_map] at hcmem
      obtain ⟨s, hs, rfl⟩ := hcmem
      simp only [decide_eq_true_eq] at hc
      exact hp (hc ▸ hs))]
    apply List.map_congr_left
    intro s hs
    have hne : p.status ≠ s := fun h => hp (h ▸ hs)
    simp [hne]

theorem foldl_addToColumns (ps : List ProjectSummary) :
    ∀ f : String → List ProjectSummary,
      ps.foldl addToColumns (PIPELINE_STATUSES.map (fun s => (s, f s))) =
        PIPELINE_STATUSES.map
          (fun s => (s, f s ++ ps.filter (fun p => p.status = s))) := by
  induction ps with
  | nil => intro f; simp
  | cons p ps ih =>
    intro f
    rw [List.foldl_cons, addToColumns_keyed f p,
      ih (fun s => f s ++ if p.status = s then [p] else [])]
    apply List.map_congr_left
    intro s _
    refine congrArg (Prod.mk s) ?_
    rw [List.filter_cons]
    by_cases hs : p.status = s
    · simp [hs, List.append_assoc]
    · simp [hs]

theorem projectsByStatus_eq (ps : List ProjectSummary) :
    projectsByStatus ps =
      PIPELINE_STATUSES.map (fun s => (s, ps.filter (fun p => p.status = s))) := by
  have h := foldl_addToColumns ps (fun _ => [])
  simpa [projectsByStatus, emptyColumns] using h

theorem filter_mem_split (ps : List ProjectSummary) (k : String) (ks : List String)
    (hk : k ∉ ks) :
    (ps.filter (fun p => decide (p.status ∈ k :: ks))).length =
      (ps.filter (fun p => p.status = k)).length +
        (ps.filter (fun p => decide (p.status ∈ ks))).length := by
  induction ps with
  | nil => simp
  | cons q qs ih =>
    simp only [List.filter_cons]
    by_cases h1 : q.status = k
    · have h2 : q.status ∉ ks := h1 ▸ hk
      have e1 : decide (q.status ∈ k :: ks) = true := by simp [h1]
      have e2 : decide (q.status = k) = true := by simp [h1]
      have e3 : decide (q.status ∈ ks) = false := by simp [h2]
      rw [e1, e2, e3]
      simp only [if_true, if_false, Bool.false_eq_true, List.length_cons, ih]
      omega
    · have e2 : decide (q.status = k) = false := by simp [h1]
      by_cases h2 : q.status ∈ ks
      · have e1 : decide (q.status ∈ k :: ks) = true := by simp [h2]
        have e3 : decide (q.status ∈ ks) = true := by simp [h2]
        rw [e1, e2, e3]
        simp only [if_true, if_false, Bool.false_eq_true, List.length_cons, ih]
        omega
      · have e1 : decide (q.status ∈ k :: ks) = false := by simp [h1, h2]
        have e3 : decide (q.status ∈ ks) = false := by simp [h2]
        rw [e1, e2, e3]
        simp only [if_true, if_false, Bool.false_eq_true, List.length_cons, ih]

theorem columns_length_sum (ps : List ProjectSummary) :
    ((projectsByStatus ps).map (fun c => c.2.length)).sum =
      (ps.filter (fun p => decide (p.status ∈ PIPELINE_STATUSES))).length := by
  rw [projectsByStatus_eq, List.map_map]
  have hgen : ∀ keys : List String, keys.Nodup →
      (keys.map (fun s => (ps.filter (fun p => p.status = s)).length)).sum =
        (ps.filter (fun p => decide (p.status ∈ keys))).length := by
    intro keys
    induction keys with
    | nil => intro _; simp
    | cons k ks ih =>
      intro hnd
      rw [List.nodup_cons] at hnd
      rw [List.map_cons, List.sum_cons, ih hnd.2, filter_mem_split ps k ks hnd.1]
  have h := hgen PIPELINE_STATUSES (by decide)
  simpa [Function.comp] using h

/-- C9: the kanban grouping buckets exactly the projects with a pipeline
status, each into the single column matching its status; a project with an
unknown status lands in no column, so the column counts can add up to less
than the number of fetched projects. -/
theorem projectsByStatus_partition (ps : List ProjectSummary) (p : ProjectSummary) :
    projectsByStatus ps =
      PIPELINE_STATUSES.map (fun s => (s, ps.filter (fun q => q.status = s))) ∧
    (∀ c ∈ projectsByStatus ps, (p ∈ c.2 ↔ p ∈ ps ∧ p.status = c.1)) ∧
    (p ∈ ps → p.status ∈ PIPELINE_STATUSES →
      (projectsByStatus ps).countP (fun c => decide (p ∈ c.2)) = 1) ∧
    (p.status ∉ PIPELINE_STATUSES → ∀ c ∈ projectsByStatus ps, p ∉ c.2) ∧
    ((projectsByStatus ps).map (fun c => c.2.length)).sum =
      (ps.filter (fun q => decide (q.status ∈ PIPELINE_STATUSES))).length ∧
    (∃ qs : List ProjectSummary,
      ((projectsByStatus qs).map (fun c => c.2.length)).sum < qs.length) := by
  have hmem : ∀ c ∈ projectsByStatus ps, (p ∈ c.2 ↔ p ∈ ps ∧ p.status = c.1) := by
    intro c hc
    rw [projectsByStatus_eq] at hc
    simp only [List.mem_map] at hc
    obtain ⟨s, _, rfl⟩ := hc
    simp [List.mem_filter]
  refine ⟨projectsByStatus_eq ps, hmem, ?_, ?_, columns_length_sum ps, ?_⟩
  · intro hpps hp
    rw [projectsByStatus_eq]
    simp only [PIPELINE_STATUSES, List.mem_cons, List.not_mem_nil, or_false] at hp
    rcases hp with h | h | h | h | h | h | h | h | h <;>
      simp [PIPELINE_STATUSES, List.countP_cons, List.mem_filter, h, hpps]
  · intro hns c hc hpc
    rcases (hmem c hc).mp hpc with ⟨_, hstat⟩
    apply hns
    rw [projectsByStatus_eq] at hc
    simp only [List.mem_map] at hc
    obtain ⟨s, hs, rfl⟩ := hc
    exact hstat ▸ hs
  · refine ⟨[{ id := 1, workflow_id := "w", name := "n", department := "d",
               status := "unknown_status", risk_level := "low", risk_score := 1,
               benefit_score := 1, owner := "o", controls := [],
               review_due := none }], ?_⟩
    decide

/-- Witness for C9: a concrete `approved` project is counted in exactly one
kanban column. -/
theorem projectsByStatus_partition_check :
    (projectsByStatus
      [{ id := 2, workflow_id := "w2", name := "n2", department := "sales",
         status := "approved", risk_level := "low", risk_score := 1,
         benefit_score := 2, owner := "o", controls := [],
         review_due := none }]).countP
      (fun c => decide
        (({ id := 2, workflow_id := "w2", name := "n2", department := "sales",
            status := "approved", risk_level := "low", risk_score := 1,
            benefit_score := 2, owner := "o", controls := [],
            review_due := none } : ProjectSummary) ∈ c.2)) = 1 :=
  (projectsByStatus_partition
    [{ id := 2, workflow_id := "w2", name := "n2", department := "sales",
       status := "approved", risk_level := "low", risk_score := 1,
       benefit_score := 2, owner := "o", controls := [], review_due := none }]
    { id := 2, workflow_id := "w2", name := "n2", department := "sales",
      status := "approved", risk_level := "low", risk_score := 1,
      benefit_score := 2, owner := "o", controls := [],
      review_due := none }).2.2.1 (List.mem_singleton_self _) (by decide)

/-! ### CSV lemmas -/

theorem digitChar_isDigit (m : Nat) (h : m < 10) : (Nat.digitChar m).isDigit = true := by
  interval_cases m <;> rfl

theorem mem_natCharsAux (fuel : Nat) : ∀ (n : Nat) (c : Char),
    c ∈ natCharsAux fuel n → c.isDigit = true := by
  induction fuel with
  | zero => intro n c h; simp [natCharsAux] at h
  | succ fuel ih =>
    intro n c h
    rw [natCharsAux] at h
    by_cases h10 : n < 10
    · rw [if_pos h10] at h
      rw [List.mem_singleton.mp h]
      exact digitChar_isDigit n h10
    · rw [if_neg h10] at h
      rcases List.mem_append.mp h with h | h
      · exact ih _ _ h
      · rw [List.mem_singleton.mp h]
        exact digitChar_isDigit _ (Nat.mod_lt n (by omega))

theorem mem_natChars (n : Nat) (c : Char) (h : c ∈ natChars n) : c.isDigit = true :=
  mem_natCharsAux _ _ _ h

theorem mem_intChars (i : Int) (c : Char) (h : c ∈ intChars i) :
    c = '-' ∨ c.isDigit = true := by
  unfold intChars at h
  by_cases hi : i < 0
  · rw [if_pos hi] at h
    rcases List.mem_cons.mp h with h | h
    exacts [Or.inl h, Or.inr (mem_natChars _ _ h)]
  · rw [if_neg hi] at h
    exact Or.inr (mem_natChars _ _ h)

theorem mem_ratChars (q : ℚ) (c : Char) (h : c ∈ ratChars q) :
    c = '-' ∨ c = '/' ∨ c.isDigit = true := by
  unfold ratChars at h
  rcases List.mem_append.mp h with h | h
  · rcases mem_intChars _ _ h with h | h
    exacts [Or.inl h, Or.inr (Or.inr h)]
  · rcases List.mem_cons.mp h with h | h
    exacts [Or.inr (Or.inl h), Or.inr (Or.inr (mem_natChars _ _ h))]

theorem intStr_safe (i : Int) : ',' ∉ (intStr i).data ∧ '\n' ∉ (intStr i).data := by
  constructor <;> intro hmem
  · rcases mem_intChars i _ hmem with h | h
    · exact absurd h (by decide)
    · exact absurd h (by decide)
  · rcases mem_intChars i _ hmem with h | h
    · exact absurd h (by decide)
    · exact absurd h (by decide)

theorem ratStr_safe (q : ℚ) : ',' ∉ (ratStr q).data ∧ '\n' ∉ (ratStr q).data := by
  constructor <;> intro hmem
  · rcases mem_ratChars q _ hmem with h | h | h
    · exact absurd h (by decide)
    · exact absurd h (by decide)
    · exact absurd h (by decide)
  · rcases mem_ratChars q _ hmem with h | h | h
    · exact absurd h (by decide)
    · exact absurd h (by decide)
    · exact absurd h (by decide)

theorem csvRowFields_safe (e : AuditEntry)
    (ht : ',' ∉ e.timestamp.data ∧ '\n' ∉ e.timestamp.data)
    (hd : ',' ∉ e.department.data ∧ '\n' ∉ e.department.data)
    (hm : ',' ∉ e.model.data ∧ '\n' ∉ e.model.data)
    (hs : ',' ∉ e.status.data ∧ '\n' ∉ e.status.data) :
    ∀ f ∈ csvRowFields e, ',' ∉ f.data ∧ '\n' ∉ f.data := by
  intro f hf
  simp only [csvRowFields, List.mem_cons, List.not_mem_nil, or_false] at hf
  rcases hf with rfl | rfl | rfl | rfl | rfl | rfl | rfl | rfl
  exacts [intStr_safe _, ht, hd, hm, intStr_safe _, ratStr_safe _, intStr_safe _, hs]

theorem splitSeg_ne_nil (c : Char) (l : List Char) : splitSeg c l ≠ [] := by
  cases l with
  | nil => simp [splitSeg]
  | cons x xs =>
    rw [splitSeg]
    cases h : splitSeg c xs with
    | nil => simp
    | cons hd tl =>
      dsimp only
      split <;> simp

theorem splitSeg_of_not_mem (c : Char) : ∀ p : List Char, c ∉ p → splitSeg c p = [p] := by
  intro p
  induction p with
  | nil => intro _; rfl
  | cons x xs ih =>
    intro hp
    simp only [List.mem_cons, not_or] at hp
    have hxc : ¬ x = c := fun h => hp.1 h.symm
    rw [splitSeg, ih hp.2]
    simp [hxc]

theorem splitSeg_append (c : Char) (rest : List Char) :
    ∀ p : List Char, c ∉ p → splitSeg c (p ++ c :: rest) = p :: splitSeg c rest := by
  intro p
  induction p with
  | nil =>
    intro _
    simp only [List.nil_append]
    cases h : splitSeg c rest with
    | nil => exact absurd h (splitSeg_ne_nil c rest)
    | cons hd tl => simp [splitSeg, h]
  | cons x xs ih =>
    intro hp
    simp only [List.mem_cons, not_or] at hp
    have hxc : ¬ x = c := fun h => hp.1 h.symm
    simp only [List.cons_append]
    rw [splitSeg, ih hp.2]
    simp [hxc]

theorem joinSep_data_cases (sep : String) : ∀ (parts : List String) (c' : Char),
    c' ∈ (joinSep sep parts).data → c' ∈ sep.data ∨ ∃ p ∈ parts, c' ∈ p.data := by
  intro parts
  induction parts with
  | nil => intro c' h; simp [joinSep] at h
  | cons x xs ih =>
    intro c' h
    cases xs with
    | nil =>
      simp only [joinSep] at h
      exact Or.inr ⟨x, by simp, h⟩
    | cons y ys =>
      have hj : joinSep sep (x :: y :: ys) = x ++ sep ++ joinSep sep (y :: ys) := rfl
      rw [hj, String.data_append, String.data_append] at h
      rcases List.mem_append.mp h with h | h
      · rcases List.mem_append.mp h with h | h
        · exact Or.inr ⟨x, by simp, h⟩
        · exact Or.inl h
      · rcases ih c' h with h | ⟨p, hp, hc⟩
        · exact Or.inl h
        · exact Or.inr ⟨p, List.mem_cons_of_mem _ hp, hc⟩

theorem splitChar_joinSep (c : Char) (sep : String) (hsep : sep.data = [c]) :
    ∀ parts : List String, parts ≠ [] → (∀ p ∈ parts, c ∉ p.data) →
      splitChar c (joinSep sep parts) = parts := by
  intro parts
  induction parts with
  | nil => intro hne _; exact absurd rfl hne
  | cons x xs ih =>
    intro _ h
    cases xs with
    | nil =>
      show splitChar c x = [x]
      unfold splitChar
      rw [splitSeg_of_not_mem c x.data (h x (by simp))]
      rfl
    | cons y ys =>
      have hx : c ∉ x.data := h x (by simp)
      have hdata : (joinSep sep (x :: y :: ys)).data =
          x.data ++ c :: (joinSep sep (y :: ys)).data := by
        have hj : joinSep sep (x :: y :: ys) = x ++ sep ++ joinSep sep (y :: ys) := rfl
        rw [hj, String.data_append, String.data_append, hsep]
        simp
      have ihh := ih (by simp) (fun p hp => h p (List.mem_cons_of_mem _ hp))
      unfold splitChar at ihh ⊢
      rw [hdata, splitSeg_append c _ x.data hx]
      simpa using ihh

/-- C4: `exportCsv` yields nothing on an empty filtered list, and otherwise
exactly the text whose first line is the fixed 8-column header and which
continues with one comma-joined line per filtered entry, in list order,
carrying that entry's id, timestamp, department, model, total_tokens,
cost_usd, latency_ms and status. -/
theorem exportCsv_header_rows (l : List AuditEntry) :
    (l = [] → exportCsv l = none) ∧
    (l ≠ [] → exportCsv l =
      some (joinSep "\n"
        ("ID,Timestamp,Department,Model,Tokens,Cost,Latency (ms),Status" ::
          l.map (fun e => joinSep ","
            [intStr e.id, e.timestamp, e.department, e.model,
             intStr e.total_tokens, ratStr e.cost_usd, intStr e.latency_ms,
             e.status])))) := by
  constructor
  · intro h; subst h; rfl
  · intro h
    have hlen : ¬ l.length = 0 := by
      simpa [List.length_eq_zero] using h
    rw [exportCsv, if_neg hlen]
    rfl

/-- Witness for C4: a one-entry export evaluates to the header line plus
that entry's comma-joined row. -/
theorem exportCsv_header_rows_check :
    exportCsv [{ id := 1, timestamp := "t1", department := "sales", model := "m1",
                 provider := "p", task_tier := "fast", total_tokens := 100,
                 cost_usd := 3, latency_ms := 250, status := "success" }] =
      some ("ID,Timestamp,Department,Model,Tokens,Cost,Latency (ms),Status" ++
        "\n" ++ "1,t1,sales,m1,100,3/1,250,success") := by
  have h := (exportCsv_header_rows
    [{ id := 1, timestamp := "t1", department := "sales", model := "m1",
       provider := "p", task_tier := "fast", total_tokens := 100,
       cost_usd := 3, latency_ms := 250, status := "success" }]).2 (by simp)
  rw [h]
  rfl

/-- C8: the export does no quoting: when no string field holds a comma or a
newline, a naive split-on-newline/split-on-comma read-back of the CSV text
recovers the header plus exactly the exported fields of every entry, in
order, each row having exactly 8 columns; and there is an entry with a comma
in a field for which the read-back fails. -/
theorem exportCsv_naive_roundtrip (l : List AuditEntry) (hl : l ≠ [])
    (hfields : ∀ e ∈ l,
      (',' ∉ e.timestamp.data ∧ '\n' ∉ e.timestamp.data) ∧
      (',' ∉ e.department.data ∧ '\n' ∉ e.department.data) ∧
      (',' ∉ e.model.data ∧ '\n' ∉ e.model.data) ∧
      (',' ∉ e.status.data ∧ '\n' ∉ e.status.data)) :
    (∃ t, exportCsv l = some t ∧
      parseNaiveCsv t = csvHeaders :: l.map csvRowFields ∧
      ∀ row ∈ parseNaiveCsv t, row.length = 8) ∧
    (∃ e : AuditEntry, ∃ u, exportCsv [e] = some u ∧
      parseNaiveCsv u ≠ csvHeaders :: [e].map csvRowFields) := by
  constructor
  · have hsafe : ∀ e ∈ l, ∀ f ∈ csvRowFields e, ',' ∉ f.data ∧ '\n' ∉ f.data := by
      intro e he
      obtain ⟨ht, hd, hm, hs⟩ := hfields e he
      exact csvRowFields_safe e ht hd hm hs
    have hlen : ¬ l.length = 0 := by simpa [List.length_eq_zero] using hl
    have hexp : exportCsv l = some (joinSep "\n" (joinSep "," csvHeaders ::
        l.map (fun e => joinSep "," (csvRowFields e)))) := by
      rw [exportCsv, if_neg hlen]
    have hlines : splitChar '\n' (joinSep "\n" (joinSep "," csvHeaders ::
        l.map (fun e => joinSep "," (csvRowFields e)))) =
        joinSep "," csvHeaders :: l.map (fun e => joinSep "," (csvRowFields e)) := by
      apply splitChar_joinSep '\n' "\n" rfl
      · simp
      · intro p hp
        rcases List.mem_cons.mp hp with rfl | hp
        · decide
        · rw [List.mem_map] at hp
          obtain ⟨e, he, rfl⟩ := hp
          intro hmem
          rcases joinSep_data_cases "," _ '\n' hmem with hc | ⟨f, hf, hcf⟩
          · exact absurd hc (by decide)
          · exact (hsafe e he f hf).2 hcf
    have hparse : parseNaiveCsv (joinSep "\n" (joinSep "," csvHeaders ::
        l.map (fun e => joinSep "," (csvRowFields e)))) =
        csvHeaders :: l.map csvRowFields := by
      have hhead : splitChar ',' (joinSep "," csvHeaders) = csvHeaders := by decide
      have hrows : (l.map (fun e => joinSep "," (csvRowFields e))).map
          (fun line => splitChar ',' line) = l.map csvRowFields := by
        rw [List.map_map]
        apply List.map_congr_left
        intro e he
        simp only [Function.comp]
        apply splitChar_joinSep ',' "," rfl
        · simp [csvRowFields]
        · intro f hf
          exact (hsafe e he f hf).1
      unfold parseNaiveCsv
      rw [hlines, List.map_cons, hhead, hrows]
    refine ⟨_, hexp, hparse, ?_⟩
    intro row hrow
    rw [hparse] at hrow
    rcases List.mem_cons.mp hrow with rfl | hrow
    · rfl
    · rw [List.mem_map] at hrow
      obtain ⟨e, _, rfl⟩ := hrow
      rfl
  · refine ⟨{ id := 1, timestamp := "t", department := "a,b", model := "m",
              provider := "p", task_tier := "f", total_tokens := 2, cost_usd := 3,
              latency_ms := 4, status := "ok" }, _, rfl, ?_⟩
    decide

/-- Witness for C8 at a concrete comma-free entry. -/
theorem exportCsv_naive_roundtrip_check :
    (∃ t, exportCsv
      [{ id := 1, timestamp := "t1", department := "sales", model := "m1",
         provider := "p", task_tier := "fast", total_tokens := 100,
         cost_usd := 3, latency_ms := 250, status := "success" }] = some t ∧
      parseNaiveCsv t = csvHeaders ::
        [{ id := 1, timestamp := "t1", department := "sales", model := "m1",
           provider := "p", task_tier := "fast", total_tokens := 100,
           cost_usd := 3, latency_ms := 250,
           status := "success" }].map csvRowFields ∧
      ∀ row ∈ parseNaiveCsv t, row.length = 8) ∧
    (∃ e : AuditEntry, ∃ u, exportCsv [e] = some u ∧
      parseNaiveCsv u ≠ csvHeaders :: [e].map csvRowFields) :=
  exportCsv_naive_roundtrip
    [{ id := 1, timestamp := "t1", department := "sales", model := "m1",
       provider := "p", task_tier := "fast", total_tokens := 100,
       cost_usd := 3, latency_ms := 250, status := "success" }]
    (by simp) (by decide)

end GongPoc
